import Mathlib

/-!
# ROSOutAppender (roscpp, `rosout_appender.cpp`)

A shallow embedding of `ros::ROSOutAppender`: the `log` member function as a state
transformer, the `logThread` worker and the destructor as small-step machines over the
same state, and an interleaving semantics (`step`, `run`).

The worker reads `shutting_down_` under the mutex while the destructor writes it without
the mutex, so every read of the flag is a worker step of its own. The mutex itself is
not a component of the state: a call of `log` is one event, placed where it pushes to
the queue, and events are allowed in every state, so the executions of the model
include those of the source.
-/

namespace ros

namespace console

/-- Values of the enum `ros::console::Level`, seen as integers. -/
abbrev Level := Int

namespace levels

/-- Modelled from the spec: the enumerators of `ros::console::Level` are declared in the
rosconsole header, which is not part of the source file; the data model lists them as
Debug, Info, Warn, Error, Fatal in this order, numbered here from zero as a C++ enum is. -/
def Debug : Level := 0

/-- Modelled from the spec: second enumerator of `ros::console::Level`. -/
def Info : Level := 1

/-- Modelled from the spec: third enumerator of `ros::console::Level`. -/
def Warn : Level := 2

/-- Modelled from the spec: fourth enumerator of `ros::console::Level`. -/
def Error : Level := 3

/-- Modelled from the spec: fifth enumerator of `ros::console::Level`. -/
def Fatal : Level := 4

end levels

end console

namespace rosgraph_msgs

/-- The message `rosgraph_msgs::Log`, with the fields that `log` fills
(`header.stamp` is `stamp`). The field `line` is a `uint32`: its values are naturals
below `2 ^ 32`. -/
structure Log where
  stamp : Nat
  level : Nat
  name : String
  msg : String
  file : String
  function : String
  line : Nat
  topics : List String
  deriving DecidableEq, Repr

namespace Log

/-- Modelled from the spec: the severity codes of the message type are declared in the
generated header `rosgraph_msgs/Log.h`, which is not part of the source file; they are the
byte constants of `Log.msg`. -/
def DEBUG : Nat := 1

/-- Modelled from the spec: severity code INFO of `rosgraph_msgs/Log`. -/
def INFO : Nat := 2

/-- Modelled from the spec: severity code WARN of `rosgraph_msgs/Log`. -/
def WARN : Nat := 4

/-- Modelled from the spec: severity code ERROR of `rosgraph_msgs/Log`. -/
def ERROR : Nat := 8

/-- Modelled from the spec: severity code FATAL of `rosgraph_msgs/Log`. -/
def FATAL : Nat := 16

/-- The message that `boost::make_shared<rosgraph_msgs::Log>()` builds: every field
value-initialised. -/
def empty : Log :=
  { stamp := 0, level := 0, name := "", msg := "", file := "", function := "",
    line := 0, topics := [] }

end Log

end rosgraph_msgs

open rosgraph_msgs (Log)

/-- The conversion of a C `int` to `uint32`, as in the assignment `msg->line = line`:
the value modulo `2 ^ 32`. -/
def toUInt32 (i : Int) : Nat :=
  (i % 2 ^ 32).toNat

/-- The value `%i` prints for a `uint32` argument: its 32 bits read as a signed `int`. -/
def asInt (n : Nat) : Int :=
  if n % 2 ^ 32 < 2 ^ 31 then ((n % 2 ^ 32 : Nat) : Int)
  else ((n % 2 ^ 32 : Nat) : Int) - 2 ^ 32

/-- One call of `sd_journal_send` with the six fields that `log` passes. -/
structure JournalEntry where
  MESSAGE : String
  PRIORITY : Int
  CODE_FILE : String
  CODE_LINE : Int
  CODE_FUNC : String
  SYSLOG_IDENTIFIER : String
  deriving DecidableEq, Repr

/-- What the collaborators answer during one call of `log`: `ros::Time::now()`,
`this_node::getName()`, `ros::param::getCached` on the key
`/rosout_disable_topics_generation` (`some v` when it returns true and stores `v`,
`none` when it returns false) and `this_node::getAdvertisedTopics`. -/
structure CallEnv where
  now : Nat
  nodeName : String
  cached : Option Bool
  advertised : List String
  deriving DecidableEq, Repr

/-- Where the worker thread stands in `logThread`:
`loopHead` before the test of `while (!shutting_down_)`,
`lockCheck` holding the lock before the first `if (shutting_down_)`,
`beforeWait` past that test, before the call `queue_condition_.wait(lock)`,
`waiting` inside the wait,
`woken` after the wait returned, before the second `if (shutting_down_)`,
`beforeSwap` past that test, before `local_queue.swap(log_queue_)`,
`publishing` in the `for` loop over `local_queue`,
`exited` after the function returned. -/
inductive ThreadPc where
  | loopHead
  | lockCheck
  | beforeWait
  | waiting
  | woken
  | beforeSwap
  | publishing
  | exited
  deriving DecidableEq, Repr

/-- Where the destructor stands: before `shutting_down_ = true`, before the
`notify_all`, before `publish_thread_.join()` returns, and done. -/
inductive DtorPc where
  | notStarted
  | flagSet
  | notified
  | joined
  deriving DecidableEq, Repr

/-- The object state: the data members of the class, the worker thread's local
variables (`pc`, `local_queue`, the iterator `it` as an index), the destructor's
progress, and the two observable effects (calls of `TopicManager::publish` and of
`sd_journal_send`, in call order). -/
structure ROSOutAppender where
  last_error_ : String
  log_queue_ : List Log
  shutting_down_ : Bool
  disable_topics_ : Bool
  pc : ThreadPc
  local_queue : List Log
  it : Nat
  dtor : DtorPc
  published : List Log
  journal : List JournalEntry
  deriving DecidableEq, Repr

namespace ROSOutAppender

/-- The constructor: `shutting_down_(false)` and the worker thread started at the top of
`logThread`. The member `disable_topics_` has no initialiser, so its first value is the
argument `flag0`. -/
def construct (flag0 : Bool) : ROSOutAppender :=
  { last_error_ := "", log_queue_ := [], shutting_down_ := false,
    disable_topics_ := flag0, pc := ThreadPc.loopHead, local_queue := [], it := 0,
    dtor := DtorPc.notStarted, published := [], journal := [] }

/-- The member function `getLastError`. -/
def getLastError (self : ROSOutAppender) : String :=
  self.last_error_

/-- Lines 83 to 108 of `log`: the severity code stored in `msg->level` (which keeps its
initial value 0 when no branch is taken) and the local `priority`, which starts at 6. -/
def severity (level : console.Level) : Nat × Int :=
  if level = console.levels.Debug then (Log.DEBUG, 7)
  else if level = console.levels.Info then (Log.INFO, 6)
  else if level = console.levels.Warn then (Log.WARN, 4)
  else if level = console.levels.Error then (Log.ERROR, 3)
  else if level = console.levels.Fatal then (Log.FATAL, 0)
  else (Log.empty.level, 6)

/-- The flag `disable_topics_` after the statement
`if (!getCached(key, disable_topics_)) disable_topics_ = false;`. -/
def refreshFlag (_old : Bool) (cached : Option Bool) : Bool :=
  match cached with
  | some v => v
  | none => false

/-- The message `log` has built when it reaches the queue: lines 80 to 113, and the
topics filled at line 121 when the flag is off. -/
def buildMsg (flag : Bool) (level : console.Level) (str file function : String)
    (line : Int) (env : CallEnv) : Log :=
  let msg : Log :=
    { Log.empty with
      stamp := env.now, level := (severity level).1, name := env.nodeName, msg := str,
      file := file, function := function, line := toUInt32 line }
  if !flag then { msg with topics := env.advertised } else msg

/-- The journal entry sent at lines 122 to 129 for a built message. -/
def journalEntry (msg : Log) (priority : Int) : JournalEntry :=
  { MESSAGE := msg.msg, PRIORITY := priority, CODE_FILE := msg.file,
    CODE_LINE := asInt msg.line, CODE_FUNC := msg.function, SYSLOG_IDENTIFIER := msg.name }

/-- The call `queue_condition_.notify_all()`: a thread blocked in the wait is released,
any other thread is unaffected. -/
def notify_all (self : ROSOutAppender) : ROSOutAppender :=
  if self.pc = ThreadPc.waiting then { self with pc := ThreadPc.woken } else self

/-- A spurious return of `queue_condition_.wait(lock)`: the condition variable may
release a blocked thread without any notification, and the wait at line 156 is not
inside a loop over a predicate. -/
def spuriousWake (self : ROSOutAppender) : ROSOutAppender :=
  if self.pc = ThreadPc.waiting then { self with pc := ThreadPc.woken } else self

/-- The member function `log`, as one atomic step. -/
def log (self : ROSOutAppender) (level : console.Level) (str file function : String)
    (line : Int) (env : CallEnv) : ROSOutAppender :=
  let priority := (severity level).2
  let flag := refreshFlag self.disable_topics_ env.cached
  let msg := buildMsg flag level str file function line env
  let s1 := { self with disable_topics_ := flag }
  let s2 := if !flag then { s1 with journal := s1.journal ++ [journalEntry msg priority] }
            else s1
  let s3 := if level = console.levels.Fatal ∨ level = console.levels.Error
            then { s2 with last_error_ := str } else s2
  let s4 := { s3 with log_queue_ := s3.log_queue_ ++ [msg] }
  notify_all s4

/-- One step of the worker thread in `logThread`: each test of `shutting_down_`, the
entry into the wait, the swap, and each turn of the publish loop is a step. A thread that
is blocked in the wait or has returned does not move. -/
def logThread (self : ROSOutAppender) : ROSOutAppender :=
  match self.pc with
  | ThreadPc.loopHead =>
      if self.shutting_down_ then { self with pc := ThreadPc.exited }
      else { self with pc := ThreadPc.lockCheck, local_queue := [] }
  | ThreadPc.lockCheck =>
      if self.shutting_down_ then { self with pc := ThreadPc.exited }
      else { self with pc := ThreadPc.beforeWait }
  | ThreadPc.beforeWait => { self with pc := ThreadPc.waiting }
  | ThreadPc.waiting => self
  | ThreadPc.woken =>
      if self.shutting_down_ then { self with pc := ThreadPc.exited }
      else { self with pc := ThreadPc.beforeSwap }
  | ThreadPc.beforeSwap =>
      { self with
        local_queue := self.log_queue_, log_queue_ := self.local_queue,
        it := 0, pc := ThreadPc.publishing }
  | ThreadPc.publishing =>
      match self.local_queue.get? self.it with
      | some m => { self with published := self.published ++ [m], it := self.it + 1 }
      | none => { self with pc := ThreadPc.loopHead, local_queue := [], it := 0 }
  | ThreadPc.exited => self

/-- One step of the destructor: set the flag, notify under the lock, join. The join
returns only once the worker has exited. -/
def destroy (self : ROSOutAppender) : ROSOutAppender :=
  match self.dtor with
  | DtorPc.notStarted => { self with shutting_down_ := true, dtor := DtorPc.flagSet }
  | DtorPc.flagSet => { notify_all self with dtor := DtorPc.notified }
  | DtorPc.notified =>
      if self.pc = ThreadPc.exited then { self with dtor := DtorPc.joined } else self
  | DtorPc.joined => self

end ROSOutAppender

/-- The arguments of one call of `log` together with the collaborators' answers. -/
structure LogCall where
  level : console.Level
  str : String
  file : String
  function : String
  line : Int
  env : CallEnv
  deriving DecidableEq, Repr

/-- The events of an execution: a producer calls `log`, the worker thread takes a step,
the destructor takes a step, the wait returns spuriously. -/
inductive Event where
  | log (c : LogCall)
  | worker
  | dtor
  | spurious
  deriving DecidableEq, Repr

open ROSOutAppender

/-- The effect of one event on the object. Every event is defined in every state, also
where the mutex would make a caller of `log` or the destructor wait: the executions of
the source are those in which such an event comes only while the worker is not between
taking the lock and releasing it, and they are among the executions considered here. -/
def step (s : ROSOutAppender) : Event → ROSOutAppender
  | Event.log c => s.log c.level c.str c.file c.function c.line c.env
  | Event.worker => s.logThread
  | Event.dtor => s.destroy
  | Event.spurious => s.spuriousWake

/-- The effect of a sequence of events, from left to right. -/
def run (s : ROSOutAppender) (tr : List Event) : ROSOutAppender :=
  tr.foldl step s

/-- The message that a call of `log` enqueues. -/
def LogCall.record (c : LogCall) : Log :=
  buildMsg (refreshFlag false c.env.cached) c.level c.str c.file c.function c.line c.env

/-- The messages enqueued by the calls of `log` in a sequence of events, in call order. -/
def records : List Event → List Log
  | [] => []
  | Event.log c :: tr => c.record :: records tr
  | _ :: tr => records tr

/-- The records the worker holds and has not yet published. -/
def pendingLocal (s : ROSOutAppender) : List Log :=
  s.local_queue.drop s.it

/-- The calls of `log` in a sequence of events, in call order. -/
def calls : List Event → List LogCall
  | [] => []
  | Event.log c :: tr => c :: calls tr
  | _ :: tr => calls tr

/-- Whether a call has level Error or Fatal. -/
def LogCall.isSevere (c : LogCall) : Bool :=
  decide (c.level = console.levels.Error) || decide (c.level = console.levels.Fatal)

/-- The text the last-error contract promises after a sequence of calls: the message of
the last call whose level is Error or Fatal, the empty string when there is none. -/
def lastSevereText (cs : List LogCall) : String :=
  match cs.reverse.find? LogCall.isSevere with
  | some c => c.str
  | none => ""

/-- The local buffer is empty whenever the worker is outside its publish loop. -/
def LocalClean (s : ROSOutAppender) : Prop :=
  s.pc ≠ ThreadPc.publishing → s.local_queue = []

/-- A burst of calls of `log` followed by as many worker steps as one drain cycle over
that burst takes: the test of the flag, the swap and one step per record. -/
def burstThenDrain (s : ROSOutAppender) (cs : List LogCall) : ROSOutAppender :=
  run s (cs.map Event.log ++ List.replicate (cs.length + 2) Event.worker)

/-- The state a fresh appender reaches when a call of `log` comes before the worker
first waits. -/
def loggedBeforeFirstWait (flag0 : Bool) (c : LogCall) : ROSOutAppender :=
  run (construct flag0) [Event.log c, Event.worker, Event.worker, Event.worker]

/-- The state a fresh appender reaches when the worker waits, a first call wakes it, a
second call comes during its publish phase, and the worker finishes the cycle and waits
again. -/
def loggedWhilePublishing (flag0 : Bool) (c c' : LogCall) : ROSOutAppender :=
  run (construct flag0)
    [Event.worker, Event.worker, Event.worker, Event.log c, Event.worker, Event.worker,
     Event.log c', Event.worker, Event.worker, Event.worker, Event.worker, Event.worker]

/-! ## Frame lemmas for `log`, `logThread` and the destructor -/

section frame

variable (s : ROSOutAppender) (level : console.Level) (str file function : String)
  (line : Int) (env : CallEnv)

@[simp] theorem log_published :
    (s.log level str file function line env).published = s.published := by
  simp only [log, notify_all]; split_ifs <;> rfl

@[simp] theorem log_local_queue :
    (s.log level str file function line env).local_queue = s.local_queue := by
  simp only [log, notify_all]; split_ifs <;> rfl

@[simp] theorem log_it :
    (s.log level str file function line env).it = s.it := by
  simp only [log, notify_all]; split_ifs <;> rfl

@[simp] theorem log_shutting_down :
    (s.log level str file function line env).shutting_down_ = s.shutting_down_ := by
  simp only [log, notify_all]; split_ifs <;> rfl

@[simp] theorem log_dtor :
    (s.log level str file function line env).dtor = s.dtor := by
  simp only [log, notify_all]; split_ifs <;> rfl

@[simp] theorem log_disable_topics :
    (s.log level str file function line env).disable_topics_
      = refreshFlag s.disable_topics_ env.cached := by
  simp only [log, notify_all]; split_ifs <;> rfl

@[simp] theorem log_log_queue :
    (s.log level str file function line env).log_queue_
      = s.log_queue_ ++ [buildMsg (refreshFlag s.disable_topics_ env.cached)
          level str file function line env] := by
  simp only [log, notify_all]; split_ifs <;> rfl

@[simp] theorem log_pc :
    (s.log level str file function line env).pc
      = if s.pc = ThreadPc.waiting then ThreadPc.woken else s.pc := by
  simp only [log, notify_all]; split_ifs <;> rfl

@[simp] theorem log_last_error :
    (s.log level str file function line env).last_error_
      = if level = console.levels.Fatal ∨ level = console.levels.Error then str
        else s.last_error_ := by
  simp only [log, notify_all]; split_ifs <;> rfl

@[simp] theorem log_journal :
    (s.log level str file function line env).journal
      = if refreshFlag s.disable_topics_ env.cached = false then
          s.journal ++ [journalEntry
            (buildMsg (refreshFlag s.disable_topics_ env.cached)
              level str file function line env) (severity level).2]
        else s.journal := by
  simp only [log, notify_all]; split_ifs <;> simp_all

end frame

/-- The whole effect of `log`, field by field. -/
theorem log_eq (s : ROSOutAppender) (level : console.Level) (str file function : String)
    (line : Int) (env : CallEnv) :
    s.log level str file function line env =
      { last_error_ := if level = console.levels.Fatal ∨ level = console.levels.Error
          then str else s.last_error_,
        log_queue_ := s.log_queue_ ++ [buildMsg (refreshFlag s.disable_topics_ env.cached)
          level str file function line env],
        shutting_down_ := s.shutting_down_,
        disable_topics_ := refreshFlag s.disable_topics_ env.cached,
        pc := if s.pc = ThreadPc.waiting then ThreadPc.woken else s.pc,
        local_queue := s.local_queue,
        it := s.it,
        dtor := s.dtor,
        published := s.published,
        journal := if refreshFlag s.disable_topics_ env.cached = false then
            s.journal ++ [journalEntry
              (buildMsg (refreshFlag s.disable_topics_ env.cached)
                level str file function line env) (severity level).2]
          else s.journal } := by
  have h : ∀ a b : ROSOutAppender, a.last_error_ = b.last_error_ →
      a.log_queue_ = b.log_queue_ → a.shutting_down_ = b.shutting_down_ →
      a.disable_topics_ = b.disable_topics_ → a.pc = b.pc →
      a.local_queue = b.local_queue → a.it = b.it → a.dtor = b.dtor →
      a.published = b.published → a.journal = b.journal → a = b := by
    intro a b h1 h2 h3 h4 h5 h6 h7 h8 h9 h10
    cases a; cases b; simp_all
  apply h <;> simp

theorem refreshFlag_old (a b : Bool) (cached : Option Bool) :
    refreshFlag a cached = refreshFlag b cached := by
  cases cached <;> rfl

theorem records_cons (e : Event) (tr : List Event) :
    records (e :: tr) = records [e] ++ records tr := by
  cases e <;> simp [records]

theorem records_append (tr₁ tr₂ : List Event) :
    records (tr₁ ++ tr₂) = records tr₁ ++ records tr₂ := by
  induction tr₁ with
  | nil => simp [records]
  | cons e tr ih =>
    rw [List.cons_append, records_cons, ih, records_cons e tr, List.append_assoc]

theorem run_cons (s : ROSOutAppender) (e : Event) (tr : List Event) :
    run s (e :: tr) = run (step s e) tr := rfl

theorem run_append (s : ROSOutAppender) (tr₁ tr₂ : List Event) :
    run s (tr₁ ++ tr₂) = run (run s tr₁) tr₂ := by
  simp [run, List.foldl_append]

theorem drop_of_get?_some {α : Type} (l : List α) (i : Nat) (a : α)
    (h : l.get? i = some a) : l.drop i = a :: l.drop (i + 1) := by
  induction l generalizing i with
  | nil => simp at h
  | cons x xs ih =>
    cases i with
    | zero => simp at h; simp [h]
    | succ j => simp at h; simpa using ih j (by simpa using h)

theorem drop_of_get?_none {α : Type} (l : List α) (i : Nat)
    (h : l.get? i = none) : l.drop i = [] := by
  induction l generalizing i with
  | nil => simp
  | cons x xs ih =>
    cases i with
    | zero => simp at h
    | succ j => simp at h; simpa using ih j (by simpa using h)

@[simp] theorem spuriousWake_published (s : ROSOutAppender) :
    s.spuriousWake.published = s.published := by
  unfold spuriousWake; split_ifs <;> rfl

@[simp] theorem spuriousWake_local_queue (s : ROSOutAppender) :
    s.spuriousWake.local_queue = s.local_queue := by
  unfold spuriousWake; split_ifs <;> rfl

@[simp] theorem spuriousWake_it (s : ROSOutAppender) :
    s.spuriousWake.it = s.it := by
  unfold spuriousWake; split_ifs <;> rfl

@[simp] theorem spuriousWake_log_queue (s : ROSOutAppender) :
    s.spuriousWake.log_queue_ = s.log_queue_ := by
  unfold spuriousWake; split_ifs <;> rfl

@[simp] theorem spuriousWake_shutting_down (s : ROSOutAppender) :
    s.spuriousWake.shutting_down_ = s.shutting_down_ := by
  unfold spuriousWake; split_ifs <;> rfl

@[simp] theorem spuriousWake_last_error (s : ROSOutAppender) :
    s.spuriousWake.last_error_ = s.last_error_ := by
  unfold spuriousWake; split_ifs <;> rfl

@[simp] theorem spuriousWake_pc (s : ROSOutAppender) :
    s.spuriousWake.pc = if s.pc = ThreadPc.waiting then ThreadPc.woken else s.pc := by
  unfold spuriousWake; split_ifs <;> rfl

/-- Every event keeps the local buffer clean outside the publish loop and moves records
only forward: what was published, held or queued before is published, held or queued
after, in the same order, with the record of a `log` call added at the end. -/
theorem step_conserve (s : ROSOutAppender) (e : Event) (h : LocalClean s) :
    LocalClean (step s e) ∧
    (step s e).published ++ pendingLocal (step s e) ++ (step s e).log_queue_
      = s.published ++ pendingLocal s ++ s.log_queue_ ++ records [e] := by
  cases e with
  | log c =>
    constructor
    · intro hpc
      have : s.pc ≠ ThreadPc.publishing := by
        intro hp
        apply hpc
        simp [step, hp]
      simpa [step] using h this
    · simp [step, records, pendingLocal, LogCall.record,
        refreshFlag_old s.disable_topics_ false]
  | spurious =>
    constructor
    · intro hpc
      have : s.pc ≠ ThreadPc.publishing := by
        intro hp
        apply hpc
        simp [step, hp]
      simpa [step] using h this
    · simp [step, records, pendingLocal]
  | worker =>
    unfold LocalClean at h
    cases hpc : s.pc
    case publishing =>
      constructor
      · intro hq
        revert hq
        simp only [step, logThread, hpc]
        split <;> simp_all
      · simp only [step, logThread, hpc]
        split
        · rename_i m hm
          simp [pendingLocal, records, drop_of_get?_some _ _ _ hm]
        · rename_i hm
          simp [pendingLocal, records, drop_of_get?_none _ _ hm]
    all_goals
      have hl := h (by simp [hpc])
      constructor
      · intro hq
        revert hq
        simp only [step, logThread, hpc]
        (try split_ifs) <;> simp [hl]
      · simp only [step, logThread, hpc]
        (try split_ifs) <;> simp [pendingLocal, records, hl]
  | dtor =>
    unfold LocalClean at h
    cases hd : s.dtor <;>
      simp only [step, destroy, hd, notify_all, LocalClean, pendingLocal, records] <;>
      (try split_ifs) <;> simp_all

/-- Conservation along an execution. -/
theorem run_conserve (tr : List Event) (s : ROSOutAppender) (h : LocalClean s) :
    LocalClean (run s tr) ∧
    (run s tr).published ++ pendingLocal (run s tr) ++ (run s tr).log_queue_
      = s.published ++ pendingLocal s ++ s.log_queue_ ++ records tr := by
  induction tr generalizing s with
  | nil => exact ⟨h, by simp [run, records]⟩
  | cons e tr ih =>
    obtain ⟨h1, h2⟩ := step_conserve s e h
    obtain ⟨h3, h4⟩ := ih (step s e) h1
    refine ⟨by simpa [run_cons] using h3, ?_⟩
    rw [run_cons, h4, h2, records_cons e tr]
    simp [List.append_assoc]

theorem construct_clean (flag0 : Bool) : LocalClean (construct flag0) := by
  intro _; rfl

theorem logThread_last_error (s : ROSOutAppender) :
    s.logThread.last_error_ = s.last_error_ := by
  cases hpc : s.pc <;> simp only [logThread, hpc] <;> (try split_ifs) <;>
    (try split) <;> rfl

theorem destroy_last_error (s : ROSOutAppender) :
    s.destroy.last_error_ = s.last_error_ := by
  cases hd : s.dtor <;> simp only [destroy, hd, notify_all] <;> (try split_ifs) <;> rfl

theorem calls_append (tr₁ tr₂ : List Event) :
    calls (tr₁ ++ tr₂) = calls tr₁ ++ calls tr₂ := by
  induction tr₁ with
  | nil => simp [calls]
  | cons e tr ih => cases e <;> simp [calls, ih]

/-- The stored text after an execution from any state: the message of the last severe
call of the execution, or the text stored before when there is none. -/
theorem run_last_error (tr : List Event) (s : ROSOutAppender) :
    (run s tr).last_error_ =
      match (calls tr).reverse.find? LogCall.isSevere with
      | some c => c.str
      | none => s.last_error_ := by
  induction tr using List.reverseRecOn with
  | nil => simp [run, calls]
  | append_singleton tr e ih =>
    rw [run_append, calls_append]
    cases e with
    | log c =>
      simp only [run, List.foldl_cons, List.foldl_nil, step, calls, List.reverse_append,
        List.reverse_cons, List.reverse_nil, List.nil_append, List.singleton_append,
        List.find?_cons, log_last_error]
      by_cases hc : c.isSevere = true
      · have : c.level = console.levels.Fatal ∨ c.level = console.levels.Error := by
          simp only [LogCall.isSevere, Bool.or_eq_true, decide_eq_true_eq] at hc
          exact hc.symm
        simp [hc, this]
      · have : ¬ (c.level = console.levels.Fatal ∨ c.level = console.levels.Error) := by
          simp only [LogCall.isSevere, Bool.or_eq_true, decide_eq_true_eq] at hc
          exact fun h => hc h.symm
        simp only [Bool.not_eq_true] at hc
        simp only [hc, this, if_false]
        exact ih
    | worker =>
      simp only [run, List.foldl_cons, List.foldl_nil, step, calls, List.append_nil,
        logThread_last_error]
      exact ih
    | dtor =>
      simp only [run, List.foldl_cons, List.foldl_nil, step, calls, List.append_nil,
        destroy_last_error]
      exact ih
    | spurious =>
      simp only [run, List.foldl_cons, List.foldl_nil, step, calls, List.append_nil,
        spuriousWake_last_error]
      exact ih

/-! ## The worker after the shutdown flag is set -/

/-- One event in a state whose shutdown flag is set and whose worker is not between the
test after the wait and the swap: the flag stays set, the worker does not get between
that test and the swap, the shared queue only grows by the record of a `log` call, and
the worker publishes at most the next record of its local buffer. -/
theorem shutdown_step (s : ROSOutAppender) (e : Event) (h : s.shutting_down_ = true)
    (hb : s.pc ≠ ThreadPc.beforeSwap) :
    (step s e).shutting_down_ = true
    ∧ (step s e).pc ≠ ThreadPc.beforeSwap
    ∧ (step s e).log_queue_ = s.log_queue_ ++ records [e]
    ∧ (s.pc ≠ ThreadPc.publishing →
        (step s e).pc ≠ ThreadPc.publishing ∧ (step s e).published = s.published)
    ∧ (((step s e).published = s.published
          ∧ (pendingLocal (step s e) = pendingLocal s
              ∨ (step s e).pc ≠ ThreadPc.publishing))
        ∨ ∃ m, (step s e).published = s.published ++ [m]
            ∧ pendingLocal s = m :: pendingLocal (step s e)) := by
  cases e with
  | log c =>
    refine ⟨by simpa [step] using h, ?_, by simp [step, records, LogCall.record,
      refreshFlag_old s.disable_topics_ false], ?_, ?_⟩
    · simp only [step, log_pc]
      split_ifs <;> simp [hb]
    · intro hpc
      refine ⟨?_, by simp [step]⟩
      simp only [step, log_pc]
      split_ifs <;> simp [hpc]
    · left
      exact ⟨by simp [step], Or.inl (by simp [step, pendingLocal])⟩
  | spurious =>
    refine ⟨by simpa [step] using h, ?_, by simp [step, records], ?_, ?_⟩
    · simp only [step, spuriousWake_pc]
      split_ifs <;> simp [hb]
    · intro hpc
      refine ⟨?_, by simp [step]⟩
      simp only [step, spuriousWake_pc]
      split_ifs <;> simp [hpc]
    · left
      exact ⟨by simp [step], Or.inl (by simp [step, pendingLocal])⟩
  | worker =>
    cases hpc : s.pc
    case beforeSwap => exact absurd hpc hb
    case publishing =>
      cases hm : s.local_queue.get? s.it with
      | none =>
        have hs : step s Event.worker
            = { s with pc := ThreadPc.loopHead, local_queue := [], it := 0 } := by
          simp only [step, logThread, hpc, hm]
        rw [hs]
        refine ⟨h, by simp, by simp [records], by simp,
          Or.inl ⟨rfl, Or.inr (by simp)⟩⟩
      | some m =>
        have hs : step s Event.worker
            = { s with published := s.published ++ [m], it := s.it + 1 } := by
          simp only [step, logThread, hpc, hm]
        rw [hs]
        refine ⟨h, by simp [hpc], by simp [records], by simp, Or.inr ⟨m, rfl, ?_⟩⟩
        simpa [pendingLocal] using drop_of_get?_some _ _ _ hm
    all_goals
      simp only [step, logThread, hpc, h, if_true, records, List.append_nil]
      simp [h, pendingLocal, hpc]
  | dtor =>
    cases hd : s.dtor <;>
      simp only [step, destroy, hd, notify_all, records, List.append_nil, pendingLocal] <;>
      (try split_ifs) <;> simp_all

/-- An execution from a state whose shutdown flag is set and whose worker is not between
the test after the wait and the swap: the flag stays set, the shared queue is never
drained, a worker outside its publish loop publishes nothing more, and a worker inside
it publishes only records it already holds, in their order. -/
theorem shutdown_run (tr : List Event) (s : ROSOutAppender)
    (h : s.shutting_down_ = true) (hb : s.pc ≠ ThreadPc.beforeSwap) :
    (run s tr).shutting_down_ = true
    ∧ (run s tr).log_queue_ = s.log_queue_ ++ records tr
    ∧ (s.pc ≠ ThreadPc.publishing →
        (run s tr).pc ≠ ThreadPc.publishing ∧ (run s tr).published = s.published)
    ∧ ∃ k, (run s tr).published = s.published ++ (pendingLocal s).take k := by
  induction tr generalizing s with
  | nil =>
    exact ⟨h, by simp [run, records], fun hpc => ⟨hpc, rfl⟩, 0, by simp [run]⟩
  | cons e tr ih =>
    obtain ⟨h1, hb1, h2, h3, h4⟩ := shutdown_step s e h hb
    obtain ⟨i1, i2, i3, k, i4⟩ := ih (step s e) h1 hb1
    rw [run_cons]
    refine ⟨i1, ?_, ?_, ?_⟩
    · rw [i2, h2, records_cons e tr, List.append_assoc]
    · intro hpc
      obtain ⟨a, b⟩ := h3 hpc
      obtain ⟨c, d⟩ := i3 a
      exact ⟨c, d.trans b⟩
    · rcases h4 with ⟨hp, hq | hq⟩ | ⟨m, hp, hq⟩
      · exact ⟨k, by rw [i4, hp, hq]⟩
      · exact ⟨0, by rw [(i3 hq).2, hp]; simp⟩
      · exact ⟨k + 1, by rw [i4, hp, hq]; simp⟩

/-- The shutdown flag, once set, stays set. -/
theorem flag_stays_set (tr : List Event) (s : ROSOutAppender)
    (h : s.shutting_down_ = true) : (run s tr).shutting_down_ = true := by
  induction tr generalizing s with
  | nil => exact h
  | cons e tr ih =>
    rw [run_cons]
    apply ih
    cases e with
    | log c => simpa [step] using h
    | spurious => simpa [step] using h
    | worker =>
      cases hpc : s.pc <;> simp only [step, logThread, hpc] <;> (try split_ifs) <;>
        (try split) <;> simp [h]
    | dtor =>
      cases hd : s.dtor <;> simp only [step, destroy, hd, notify_all] <;>
        (try split_ifs) <;> simp [h]

/-! ## The publish loop, a burst of calls, and a blocked worker -/

/-- While the worker is in its publish loop and has records left, each of its steps
publishes the next record of the local buffer, and steps of the other threads publish
nothing and do not touch the buffer. -/
theorem publishing_run (tr : List Event) (s : ROSOutAppender)
    (hpc : s.pc = ThreadPc.publishing)
    (hk : s.it + tr.count Event.worker ≤ s.local_queue.length) :
    (run s tr).pc = ThreadPc.publishing
    ∧ (run s tr).local_queue = s.local_queue
    ∧ (run s tr).it = s.it + tr.count Event.worker
    ∧ (run s tr).published
        = s.published ++ (pendingLocal s).take (tr.count Event.worker)
    ∧ (run s tr).log_queue_ = s.log_queue_ ++ records tr := by
  induction tr generalizing s with
  | nil => simp [run, records, hpc]
  | cons e tr ih =>
    rw [run_cons, records_cons e tr]
    cases e with
    | log c =>
      have hc : List.count Event.worker (Event.log c :: tr)
          = List.count Event.worker tr :=
        List.count_cons_of_ne (by simp) tr
      rw [hc] at hk ⊢
      obtain ⟨i1, i2, i3, i4, i5⟩ := ih (step s (Event.log c))
        (by simp [step, hpc]) (by simpa [step] using hk)
      refine ⟨i1, by simpa [step] using i2, by simpa [step] using i3,
        by simpa [step, pendingLocal] using i4, ?_⟩
      rw [i5]
      simp [step, records, LogCall.record, refreshFlag_old s.disable_topics_ false]
    | spurious =>
      have hc : List.count Event.worker (Event.spurious :: tr)
          = List.count Event.worker tr :=
        List.count_cons_of_ne (by simp) tr
      rw [hc] at hk ⊢
      obtain ⟨i1, i2, i3, i4, i5⟩ := ih (step s Event.spurious)
        (by simp [step, hpc]) (by simpa [step] using hk)
      refine ⟨i1, by simpa [step] using i2, by simpa [step] using i3,
        by simpa [step, pendingLocal] using i4, ?_⟩
      rw [i5]
      simp [step, records]
    | dtor =>
      have hc : List.count Event.worker (Event.dtor :: tr)
          = List.count Event.worker tr :=
        List.count_cons_of_ne (by simp) tr
      rw [hc] at hk ⊢
      have hs : (step s Event.dtor).pc = s.pc
          ∧ (step s Event.dtor).local_queue = s.local_queue
          ∧ (step s Event.dtor).it = s.it
          ∧ (step s Event.dtor).published = s.published
          ∧ (step s Event.dtor).log_queue_ = s.log_queue_ := by
        cases hd : s.dtor <;> simp [step, destroy, hd, notify_all, hpc]
      obtain ⟨s1, s2, s3, s4, s5⟩ := hs
      obtain ⟨i1, i2, i3, i4, i5⟩ := ih (step s Event.dtor)
        (by rw [s1, hpc]) (by rw [s2, s3]; exact hk)
      refine ⟨i1, by rw [i2, s2], by rw [i3, s3], ?_, by rw [i5, s5]; simp [records]⟩
      rw [i4, s4]
      simp [pendingLocal, s2, s3]
    | worker =>
      have hc : List.count Event.worker (Event.worker :: tr)
          = List.count Event.worker tr + 1 :=
        List.count_cons_self Event.worker tr
      rw [hc] at hk ⊢
      cases hm : s.local_queue.get? s.it with
      | none =>
        have := List.get?_eq_none.mp hm
        omega
      | some m =>
        have hs : step s Event.worker
            = { s with published := s.published ++ [m], it := s.it + 1 } := by
          simp only [step, logThread, hpc, hm]
        have hd := drop_of_get?_some _ _ _ hm
        obtain ⟨i1, i2, i3, i4, i5⟩ := ih (step s Event.worker)
          (by rw [hs]; exact hpc) (by rw [hs]; simp only; omega)
        rw [hs] at i1 i2 i3 i4 i5 ⊢
        refine ⟨i1, i2, by rw [i3]; simp only; omega, ?_, by rw [i5]; simp [records]⟩
        rw [i4]
        simp [pendingLocal, hd]

theorem records_map_log (cs : List LogCall) :
    records (cs.map Event.log) = cs.map LogCall.record := by
  induction cs with
  | nil => rfl
  | cons c cs ih => simp [records, ih]

theorem records_of_no_log (tr : List Event) (h : ∀ c, Event.log c ∉ tr) :
    records tr = [] := by
  induction tr with
  | nil => rfl
  | cons e tr ih =>
    cases e with
    | log c => exact absurd (List.mem_cons_self _ _) (h c)
    | worker => exact ih (fun c hc => h c (List.mem_cons_of_mem _ hc))
    | dtor => exact ih (fun c hc => h c (List.mem_cons_of_mem _ hc))
    | spurious => exact ih (fun c hc => h c (List.mem_cons_of_mem _ hc))

/-- A burst of calls of `log` with no other event in between: the records go to the tail
of the shared queue in call order, nothing is published, the worker's buffer and the
shutdown flag are untouched, and a worker that was blocked in the wait is released by
the first call. -/
theorem logs_run (cs : List LogCall) (s : ROSOutAppender) :
    (run s (cs.map Event.log)).log_queue_ = s.log_queue_ ++ cs.map LogCall.record
    ∧ (run s (cs.map Event.log)).published = s.published
    ∧ (run s (cs.map Event.log)).local_queue = s.local_queue
    ∧ (run s (cs.map Event.log)).shutting_down_ = s.shutting_down_
    ∧ (s.pc = ThreadPc.waiting ∨ s.pc = ThreadPc.woken → cs ≠ [] →
        (run s (cs.map Event.log)).pc = ThreadPc.woken)
    ∧ (cs = [] → run s (cs.map Event.log) = s) := by
  induction cs generalizing s with
  | nil => simp [run]
  | cons c cs ih =>
    obtain ⟨i1, i2, i3, i4, i5, i6⟩ := ih (step s (Event.log c))
    simp only [List.map_cons, run_cons]
    refine ⟨?_, by simpa [step] using i2, by simpa [step] using i3,
      by simpa [step] using i4, ?_, by simp⟩
    · rw [i1]
      simp [step, LogCall.record, refreshFlag_old s.disable_topics_ false]
    · intro hpc _
      have hw : (step s (Event.log c)).pc = ThreadPc.woken := by
        rcases hpc with hpc | hpc <;> simp [step, hpc]
      by_cases hcs : cs = []
      · rw [i6 hcs]; exact hw
      · exact i5 (Or.inr hw) hcs

/-- A worker blocked in the wait stays blocked, and nothing is published or taken from
the shared queue, as long as no call of `log` is made and the wait does not return
spuriously: the only other notification is the destructor's, which comes after the
shutdown flag is set. -/
theorem waiting_run_quiet (tr : List Event) (s : ROSOutAppender)
    (hpc : s.pc = ThreadPc.waiting)
    (hd : s.dtor = DtorPc.notStarted
      ∨ (s.dtor = DtorPc.flagSet ∧ s.shutting_down_ = true))
    (hn : ∀ c, Event.log c ∉ tr) (hs : Event.spurious ∉ tr) :
    (run s tr).published = s.published ∧ (run s tr).log_queue_ = s.log_queue_ := by
  induction tr generalizing s with
  | nil => simp [run]
  | cons e tr ih =>
    have hn' : ∀ c, Event.log c ∉ tr := fun c hc => hn c (List.mem_cons_of_mem _ hc)
    have hs' : Event.spurious ∉ tr := fun hc => hs (List.mem_cons_of_mem _ hc)
    rw [run_cons]
    cases e with
    | log c => exact absurd (List.mem_cons_self _ _) (hn c)
    | spurious => exact absurd (List.mem_cons_self _ _) hs
    | worker =>
      have hw : step s Event.worker = s := by simp [step, logThread, hpc]
      rw [hw]
      exact ih s hpc hd hn' hs'
    | dtor =>
      rcases hd with hd | ⟨hd, hf⟩
      · have hw : step s Event.dtor
            = { s with shutting_down_ := true, dtor := DtorPc.flagSet } := by
          simp [step, destroy, hd]
        rw [hw]
        exact ih _ hpc (Or.inr ⟨rfl, rfl⟩) hn' hs'
      · have hw : step s Event.dtor
            = { s with pc := ThreadPc.woken, dtor := DtorPc.notified } := by
          simp [step, destroy, hd, notify_all, hpc]
        rw [hw]
        obtain ⟨_, j2, j3, _⟩ := shutdown_run tr
          { s with pc := ThreadPc.woken, dtor := DtorPc.notified } hf (by simp)
        refine ⟨(j3 (by simp)).2, ?_⟩
        rw [j2, records_of_no_log tr hn']
        simp

theorem toUInt32_of_nonneg (i : Int) (h0 : 0 ≤ i) (h1 : i < 2 ^ 32) :
    ((toUInt32 i : Nat) : Int) = i := by
  unfold toUInt32
  rw [Int.emod_eq_of_lt h0 h1]
  exact Int.toNat_of_nonneg h0

theorem asInt_toUInt32 (i : Int) (h0 : -2 ^ 31 ≤ i) (h1 : i < 2 ^ 31) :
    asInt (toUInt32 i) = i := by
  have hlt : toUInt32 i < 2 ^ 32 := by
    unfold toUInt32
    have := Int.emod_lt_of_pos i (show (0 : Int) < 2 ^ 32 by norm_num)
    have h2 := Int.emod_nonneg i (show (2 ^ 32 : Int) ≠ 0 by norm_num)
    omega
  have hcast : ((toUInt32 i : Nat) : Int) = i % 2 ^ 32 := by
    unfold toUInt32
    exact Int.toNat_of_nonneg (Int.emod_nonneg i (by norm_num))
  unfold asInt
  rw [Nat.mod_eq_of_lt hlt]
  by_cases hi : 0 ≤ i
  · have : i % 2 ^ 32 = i := Int.emod_eq_of_lt hi (by omega)
    have hlt31 : toUInt32 i < 2 ^ 31 := by omega
    rw [if_pos hlt31, hcast, this]
  · have : i % 2 ^ 32 = i + 2 ^ 32 := by
      rw [← Int.add_emod_self]
      exact Int.emod_eq_of_lt (by omega) (by omega)
    have hge : ¬ toUInt32 i < 2 ^ 31 := by omega
    rw [if_neg hge, hcast, this]
    omega

/-! ## The claims -/

/-- C1, last-error tracking: after any execution on a freshly constructed appender
(calls of `log`, interleaved in any way with worker and destructor steps),
`getLastError` returns the message of the last call whose level is Error or Fatal and
the empty string when there is none; a call with level Debug, Info or Warn leaves the
stored text unchanged; the sequence Info, Warn, Error "A", Debug, Fatal "B" gives "B",
and the sequence Info, Warn, Debug gives the empty string. -/
theorem last_error_tracking (flag0 : Bool) (tr : List Event) (s : ROSOutAppender)
    (str file function : String) (line : Int) (env : CallEnv) :
    (run (construct flag0) tr).getLastError = lastSevereText (calls tr)
    ∧ (s.log console.levels.Debug str file function line env).getLastError
        = s.getLastError
    ∧ (s.log console.levels.Info str file function line env).getLastError
        = s.getLastError
    ∧ (s.log console.levels.Warn str file function line env).getLastError
        = s.getLastError
    ∧ (run (construct flag0)
        [Event.log ⟨console.levels.Info, str, file, function, line, env⟩,
         Event.log ⟨console.levels.Warn, str, file, function, line, env⟩,
         Event.log ⟨console.levels.Error, "A", file, function, line, env⟩,
         Event.log ⟨console.levels.Debug, str, file, function, line, env⟩,
         Event.log ⟨console.levels.Fatal, "B", file, function, line, env⟩]).getLastError
        = "B"
    ∧ (run (construct flag0)
        [Event.log ⟨console.levels.Info, str, file, function, line, env⟩,
         Event.log ⟨console.levels.Warn, str, file, function, line, env⟩,
         Event.log ⟨console.levels.Debug, str, file, function, line, env⟩]).getLastError
        = "" := by
  refine ⟨?_, ?_, ?_, ?_, ?_, ?_⟩
  · rw [getLastError, run_last_error]
    rfl
  · simp [getLastError, console.levels.Debug, console.levels.Fatal, console.levels.Error]
  · simp [getLastError, console.levels.Info, console.levels.Fatal, console.levels.Error]
  · simp [getLastError, console.levels.Warn, console.levels.Fatal, console.levels.Error]
  · simp [getLastError, run, step, console.levels.Fatal]
  · simp [getLastError, run, step, console.levels.Info, console.levels.Warn,
      console.levels.Debug, console.levels.Fatal, console.levels.Error, construct]

/-- C2, severity mapping order: the priority that `log` hands to the journal is the one
`severity` gives for the level, whatever the state, the other arguments and the
collaborators' answers; over the five levels it is strictly smaller (more urgent) at each
step up: Fatal below Error below Warn below Info below Debug; and no level at all maps
below Fatal or above Debug. -/
theorem severity_priority_order (s : ROSOutAppender) (level : console.Level)
    (str file function : String) (line : Int) (env : CallEnv) :
    ((s.log level str file function line env).journal = s.journal
      ∨ ∃ e, (s.log level str file function line env).journal = s.journal ++ [e]
          ∧ e.PRIORITY = (severity level).2)
    ∧ (severity console.levels.Fatal).2 < (severity console.levels.Error).2
    ∧ (severity console.levels.Error).2 < (severity console.levels.Warn).2
    ∧ (severity console.levels.Warn).2 < (severity console.levels.Info).2
    ∧ (severity console.levels.Info).2 < (severity console.levels.Debug).2
    ∧ (severity console.levels.Fatal).2 ≤ (severity level).2
    ∧ (severity level).2 ≤ (severity console.levels.Debug).2 := by
  refine ⟨?_, by decide, by decide, by decide, by decide, ?_, ?_⟩
  · rw [log_journal]
    by_cases h : refreshFlag s.disable_topics_ env.cached = false
    · right
      exact ⟨journalEntry (buildMsg (refreshFlag s.disable_topics_ env.cached)
          level str file function line env) (severity level).2, by simp [h], rfl⟩
    · left
      simp [h]
  · have h0 : (severity console.levels.Fatal).2 = 0 := by decide
    rw [h0]
    unfold severity
    split_ifs <;> simp
  · have h7 : (severity console.levels.Debug).2 = 7 := by decide
    rw [h7]
    unfold severity
    split_ifs <;> simp

/-- C5, amended: every call of `log` refreshes the flag from the config store; a
successful lookup stores the value found, and a failed lookup sets the flag to false
whatever its value was before, so the earlier value survives a failed lookup only when
it was false. -/
theorem flag_refresh (s : ROSOutAppender) (level : console.Level)
    (str file function : String) (line : Int) (now : Nat) (nodeName : String)
    (advertised : List String) (v : Bool) :
    (s.log level str file function line ⟨now, nodeName, some v, advertised⟩).disable_topics_
      = v
    ∧ (s.log level str file function line ⟨now, nodeName, none, advertised⟩).disable_topics_
      = false := by
  simp [refreshFlag]

/-- C5, counterexample: on an appender whose flag a successful lookup has set to true,
a call whose lookup fails leaves the flag false, not true. -/
theorem flag_not_retained :
    ((construct false).log console.levels.Info "m" "f" "g" 1
        ⟨0, "n", some true, []⟩).disable_topics_ = true
    ∧ (((construct false).log console.levels.Info "m" "f" "g" 1
        ⟨0, "n", some true, []⟩).log console.levels.Info "m" "f" "g" 2
        ⟨0, "n", none, []⟩).disable_topics_ = false := by
  simp [refreshFlag]

/-- C6, synchronous sink gating: a call of `log` sends exactly one journal entry, with
the call's message, the priority mapped from its level, its file, line, function and the
node name, when the flag is false after the refresh of that call, and sends nothing when
the flag is true; when the lookup fails, on a fresh appender or in any other state, the
entry is sent. The line of the entry is the `uint32` field of the message printed with
`%i`, which is the line argument itself for every value of a 32-bit `int`. -/
theorem sink_gating (s : ROSOutAppender) (flag0 : Bool) (level : console.Level)
    (str file function : String) (line : Int) (env : CallEnv) (now : Nat)
    (nodeName : String) (advertised : List String) :
    (s.log level str file function line env).journal
      = (if (s.log level str file function line env).disable_topics_ = false then
          s.journal ++ [⟨str, (severity level).2, file, asInt (toUInt32 line), function,
            env.nodeName⟩]
         else s.journal)
    ∧ ((construct flag0).log level str file function line
          ⟨now, nodeName, none, advertised⟩).journal
      = [⟨str, (severity level).2, file, asInt (toUInt32 line), function, nodeName⟩]
    ∧ (s.log level str file function line ⟨now, nodeName, none, advertised⟩).journal
      = s.journal ++ [⟨str, (severity level).2, file, asInt (toUInt32 line), function,
          nodeName⟩]
    ∧ (-2 ^ 31 ≤ line → line < 2 ^ 31 → asInt (toUInt32 line) = line) := by
  refine ⟨?_, ?_, ?_, asInt_toUInt32 line⟩
  · rw [log_journal, log_disable_topics]
    by_cases h : refreshFlag s.disable_topics_ env.cached = false
    · simp [h, journalEntry, buildMsg]
    · simp [h]
  · simp [refreshFlag, journalEntry, buildMsg, construct]
  · simp [refreshFlag, journalEntry, buildMsg]

/-- C6, witness: the entry of a call with line 42 and with line -7 carries that line. -/
theorem sink_gating_witness :
    asInt (toUInt32 42) = 42 ∧ asInt (toUInt32 (-7)) = -7 :=
  ⟨(sink_gating (construct false) false console.levels.Info "m" "f" "g" 42
      ⟨0, "n", none, []⟩ 0 "n" []).2.2.2 (by norm_num) (by norm_num),
   (sink_gating (construct false) false console.levels.Info "m" "f" "g" (-7)
      ⟨0, "n", none, []⟩ 0 "n" []).2.2.2 (by norm_num) (by norm_num)⟩

/-- C7, amended: every call of `log` appends exactly one record to the tail of the shared
queue, whatever the flag was and becomes; the record carries the message, file and
function of the call, for the five levels the severity code of the level, and as line the
line argument converted to the unsigned 32-bit field, which is the argument itself
whenever it is not negative; on a fresh appender whose worker has reached the wait,
`log(Error, "disk full", "x.cc", "write", 42)` followed by one drain cycle gives
`getLastError() = "disk full"` and exactly one published record, with severity ERROR,
message "disk full" and line 42. -/
theorem record_enqueue (s : ROSOutAppender) (flag0 : Bool) (level : console.Level)
    (str file function : String) (line : Int) (env : CallEnv) :
    (∃ r, (s.log level str file function line env).log_queue_ = s.log_queue_ ++ [r]
        ∧ r.level = (severity level).1 ∧ r.msg = str ∧ r.file = file
        ∧ r.function = function ∧ r.line = toUInt32 line ∧ r.name = env.nodeName
        ∧ r.stamp = env.now)
    ∧ (0 ≤ line → line < 2 ^ 31 → ((toUInt32 line : Nat) : Int) = line)
    ∧ (severity console.levels.Debug).1 = Log.DEBUG
    ∧ (severity console.levels.Info).1 = Log.INFO
    ∧ (severity console.levels.Warn).1 = Log.WARN
    ∧ (severity console.levels.Error).1 = Log.ERROR
    ∧ (severity console.levels.Fatal).1 = Log.FATAL
    ∧ (run (construct flag0)
        [Event.worker, Event.worker, Event.worker,
         Event.log ⟨console.levels.Error, "disk full", "x.cc", "write", 42, env⟩,
         Event.worker, Event.worker, Event.worker]).getLastError = "disk full"
    ∧ (∃ r, (run (construct flag0)
        [Event.worker, Event.worker, Event.worker,
         Event.log ⟨console.levels.Error, "disk full", "x.cc", "write", 42, env⟩,
         Event.worker, Event.worker, Event.worker]).published = [r]
        ∧ r.level = Log.ERROR ∧ r.msg = "disk full" ∧ r.line = 42
        ∧ r.file = "x.cc" ∧ r.function = "write") := by
  refine ⟨⟨_, log_log_queue _ _ _ _ _ _ _, ?_⟩,
    fun h0 h1 => toUInt32_of_nonneg line h0 (by omega), by decide, by decide, by decide,
    by decide, by decide, ?_, ?_⟩
  · unfold buildMsg
    split_ifs <;> simp
  · rw [getLastError, run_last_error]
    simp [calls, LogCall.isSevere]
  · refine ⟨buildMsg (refreshFlag false env.cached) console.levels.Error "disk full"
      "x.cc" "write" 42 env, ?_, ?_⟩
    · simp [run, step, construct, logThread, log_eq, refreshFlag_old flag0 false]
    · have h42 : toUInt32 42 = 42 := by decide
      unfold buildMsg
      split_ifs <;> simp [severity, console.levels.Error, console.levels.Debug,
        console.levels.Info, console.levels.Warn, h42]

/-- C7, witness: line 42 is stored as 42. -/
theorem record_enqueue_witness :
    ((toUInt32 42 : Nat) : Int) = 42 :=
  (record_enqueue (construct false) false console.levels.Error "disk full" "x.cc"
    "write" 42 ⟨0, "n", none, []⟩).2.1 (by norm_num) (by norm_num)

/-- C7, counterexample: a call with line -1 enqueues a record whose line is 4294967295,
not the argument. -/
theorem record_line_wraps :
    ((construct false).log console.levels.Info "m" "f" "g" (-1)
        ⟨0, "n", none, []⟩).log_queue_
      = [⟨0, Log.INFO, "n", "m", "f", "g", 4294967295, []⟩]
    ∧ ((4294967295 : Nat) : Int) ≠ -1 := by
  constructor
  · decide
  · norm_num

/-- C8, unknown-level fallback: for a level that is none of Debug, Info, Warn, Error,
Fatal, the mapping yields priority 6, the priority of Info, and the code the message
was created with; the call still appends one record with the call's fields to the
shared queue. -/
theorem unknown_level_fallback (s : ROSOutAppender) (level : console.Level)
    (str file function : String) (line : Int) (env : CallEnv)
    (hD : level ≠ console.levels.Debug) (hI : level ≠ console.levels.Info)
    (hW : level ≠ console.levels.Warn) (hE : level ≠ console.levels.Error)
    (hF : level ≠ console.levels.Fatal) :
    (severity level).2 = 6
    ∧ (severity level).2 = (severity console.levels.Info).2
    ∧ (severity level).1 = Log.empty.level
    ∧ ∃ r, (s.log level str file function line env).log_queue_ = s.log_queue_ ++ [r]
        ∧ r.msg = str ∧ r.file = file ∧ r.function = function
        ∧ r.line = toUInt32 line ∧ r.level = Log.empty.level := by
  have hs : severity level = (Log.empty.level, 6) := by
    simp [severity, hD, hI, hW, hE, hF]
  refine ⟨by rw [hs], by rw [hs]; decide, by rw [hs], _, log_log_queue _ _ _ _ _ _ _, ?_⟩
  unfold buildMsg
  split_ifs <;> simp [hs]

/-- C8, witness: the level value 5 (the enumerator after Fatal) on a fresh appender. -/
theorem unknown_level_fallback_witness :
    (severity 5).2 = 6
    ∧ (severity 5).2 = (severity console.levels.Info).2
    ∧ (severity 5).1 = Log.empty.level
    ∧ ∃ r, ((construct false).log 5 "m" "f" "g" 1 ⟨0, "n", none, []⟩).log_queue_
          = (construct false).log_queue_ ++ [r]
        ∧ r.msg = "m" ∧ r.file = "f" ∧ r.function = "g" ∧ r.line = toUInt32 1
        ∧ r.level = Log.empty.level :=
  unknown_level_fallback (construct false) 5 "m" "f" "g" 1 ⟨0, "n", none, []⟩
    (by decide) (by decide) (by decide) (by decide) (by decide)

theorem records_replicate_worker (n : Nat) :
    records (List.replicate n Event.worker) = [] :=
  records_of_no_log _ (fun c hc => by simpa using List.eq_of_mem_replicate hc)

/-- The test of the flag by a released worker while the appender is running. -/
theorem logThread_woken (s : ROSOutAppender) (hpc : s.pc = ThreadPc.woken)
    (hf : s.shutting_down_ = false) :
    s.logThread = { s with pc := ThreadPc.beforeSwap } := by
  simp [logThread, hpc, hf]

/-- The swap of a worker that has passed the test after the wait. -/
theorem logThread_swap (s : ROSOutAppender) (hpc : s.pc = ThreadPc.beforeSwap) :
    s.logThread = { s with local_queue := s.log_queue_, log_queue_ := s.local_queue,
                           it := 0, pc := ThreadPc.publishing } := by
  simp [logThread, hpc]

/-- The test and the swap of a released worker while the appender is running. -/
theorem logThread_woken_swap (s : ROSOutAppender) (hpc : s.pc = ThreadPc.woken)
    (hf : s.shutting_down_ = false) :
    s.logThread.logThread
      = { s with local_queue := s.log_queue_, log_queue_ := s.local_queue,
                 it := 0, pc := ThreadPc.publishing } := by
  rw [logThread_woken s hpc hf, logThread_swap _ rfl]

/-- C3, FIFO preservation: after any execution on a fresh appender (calls of `log` made
one after another, interleaved in any way with worker and destructor steps and spurious
returns of the wait) the records published so far are an initial segment of the records
of the calls, in call order; and within one drain cycle, started by the test and the
swap of a released worker while running, the shared queue is handed over whole and every
worker step publishes the next record of that batch in its enqueue order, whatever calls
of `log` come in between, until the whole batch is out. -/
theorem fifo_preservation (flag0 : Bool) (tr : List Event) (s : ROSOutAppender) :
    (∃ rest, (run (construct flag0) tr).published ++ rest = records tr)
    ∧ (s.pc = ThreadPc.woken → s.shutting_down_ = false → s.local_queue = [] →
        s.logThread.logThread.local_queue = s.log_queue_
        ∧ s.logThread.logThread.log_queue_ = []
        ∧ (tr.count Event.worker ≤ s.log_queue_.length →
            (run s.logThread.logThread tr).published
              = s.published ++ s.log_queue_.take (tr.count Event.worker))
        ∧ (run s (Event.worker :: Event.worker ::
              List.replicate s.log_queue_.length Event.worker)).published
            = s.published ++ s.log_queue_) := by
  constructor
  · obtain ⟨_, h⟩ := run_conserve tr (construct flag0) (construct_clean flag0)
    refine ⟨pendingLocal (run (construct flag0) tr) ++ (run (construct flag0) tr).log_queue_, ?_⟩
    rw [← List.append_assoc, h]
    simp [construct, pendingLocal]
  · intro hpc hf hl
    have hs := logThread_woken_swap s hpc hf
    refine ⟨by rw [hs], by rw [hs]; exact hl, ?_, ?_⟩
    · intro hk
      obtain ⟨_, _, _, h4, _⟩ := publishing_run tr s.logThread.logThread (by rw [hs])
        (by rw [hs]; simpa using hk)
      rw [h4, hs]
      simp [pendingLocal]
    · rw [run_cons, run_cons]
      obtain ⟨_, _, _, h4, _⟩ := publishing_run
        (List.replicate s.log_queue_.length Event.worker) s.logThread.logThread
        (by rw [hs]) (by rw [hs]; simp)
      simp only [step]
      rw [h4, hs]
      simp [pendingLocal]

/-- C3, witness: a worker released by two calls tests the flag and swaps; a third call
comes between its two publish steps; the two records of the batch are published in call
order. -/
theorem fifo_preservation_witness :
    (run (run (construct false)
        [Event.worker, Event.worker, Event.worker,
         Event.log ⟨console.levels.Info, "a", "f", "g", 1, ⟨0, "n", none, []⟩⟩,
         Event.log ⟨console.levels.Warn, "b", "f", "g", 2,
           ⟨0, "n", none, []⟩⟩]).logThread.logThread
        [Event.worker,
         Event.log ⟨console.levels.Error, "c", "f", "g", 3, ⟨0, "n", none, []⟩⟩,
         Event.worker]).published
      = [⟨0, Log.INFO, "n", "a", "f", "g", 1, []⟩, ⟨0, Log.WARN, "n", "b", "f", "g", 2, []⟩] :=
  ((fifo_preservation false
      [Event.worker,
       Event.log ⟨console.levels.Error, "c", "f", "g", 3, ⟨0, "n", none, []⟩⟩,
       Event.worker]
      (run (construct false)
        [Event.worker, Event.worker, Event.worker,
         Event.log ⟨console.levels.Info, "a", "f", "g", 1, ⟨0, "n", none, []⟩⟩,
         Event.log ⟨console.levels.Warn, "b", "f", "g", 2, ⟨0, "n", none, []⟩⟩])).2
    (by decide) (by decide) (by decide)).2.2.1 (by decide)

/-- C4, no loss and no duplication before shutdown: in every state an execution on a
fresh appender reaches, the records published so far, followed by the records the worker
still holds, followed by the shared queue, are exactly the records of the calls of `log`
so far, each once and in call order; and when K calls are made while the worker is
blocked in the wait with nothing queued and the appender is running, the drain cycle
that follows makes exactly K publish calls, one for each record, and leaves the shared
queue and the local buffer empty. -/
theorem no_loss_no_duplication (flag0 : Bool) (tr : List Event) (s : ROSOutAppender)
    (cs : List LogCall) :
    (run (construct flag0) tr).published ++ pendingLocal (run (construct flag0) tr)
        ++ (run (construct flag0) tr).log_queue_ = records tr
    ∧ (s.pc = ThreadPc.waiting → s.shutting_down_ = false → s.local_queue = [] →
        s.log_queue_ = [] →
        (burstThenDrain s cs).published = s.published ++ cs.map LogCall.record
        ∧ (burstThenDrain s cs).published.length = s.published.length + cs.length
        ∧ (burstThenDrain s cs).log_queue_ = []
        ∧ pendingLocal (burstThenDrain s cs) = []) := by
  constructor
  · obtain ⟨_, h⟩ := run_conserve tr (construct flag0) (construct_clean flag0)
    rw [h]
    simp [construct, pendingLocal]
  · intro hpc hf hl hq
    have key : (burstThenDrain s cs).published = s.published ++ cs.map LogCall.record
        ∧ (burstThenDrain s cs).log_queue_ = []
        ∧ pendingLocal (burstThenDrain s cs) = [] := by
      unfold burstThenDrain
      obtain ⟨l1, l2, l3, l4, l5, l6⟩ := logs_run cs s
      rw [run_append]
      by_cases hcs : cs = []
      · rw [l6 hcs]
        subst hcs
        have hs : step s Event.worker = s := by simp [step, logThread, hpc]
        simp [run, hs, hq, hl, pendingLocal]
      · have hw := l5 (Or.inl hpc) hcs
        have hs := logThread_woken_swap (run s (cs.map Event.log)) hw (by rw [l4, hf])
        rw [List.replicate_succ, List.replicate_succ, run_cons, run_cons]
        obtain ⟨_, p2, p3, p4, p5⟩ := publishing_run
          (List.replicate cs.length Event.worker)
          (run s (cs.map Event.log)).logThread.logThread
          (by rw [hs]) (by rw [hs]; simp [l1, hq])
        simp only [step]
        refine ⟨?_, ?_, ?_⟩
        · rw [p4, hs]
          simp [pendingLocal, l1, l2, hq]
        · rw [p5, hs, records_replicate_worker]
          simp [l3, hl]
        · unfold pendingLocal
          rw [p2, p3, hs]
          simp [l1, hq]
    refine ⟨key.1, ?_, key.2.1, key.2.2⟩
    rw [key.1]
    simp

/-- C4, witness: a fresh appender whose worker has reached the wait, three calls, one
drain cycle. -/
theorem no_loss_no_duplication_witness :
    (burstThenDrain (run (construct false) [Event.worker, Event.worker, Event.worker])
        [⟨console.levels.Info, "a", "f", "g", 1, ⟨0, "n", none, []⟩⟩,
         ⟨console.levels.Warn, "b", "f", "g", 2, ⟨0, "n", none, []⟩⟩,
         ⟨console.levels.Error, "c", "f", "g", 3, ⟨0, "n", none, []⟩⟩]).published.length
      = 3 :=
  ((no_loss_no_duplication false []
      (run (construct false) [Event.worker, Event.worker, Event.worker])
      [⟨console.levels.Info, "a", "f", "g", 1, ⟨0, "n", none, []⟩⟩,
       ⟨console.levels.Warn, "b", "f", "g", 2, ⟨0, "n", none, []⟩⟩,
       ⟨console.levels.Error, "c", "f", "g", 3, ⟨0, "n", none, []⟩⟩]).2
    (by decide) (by decide) (by decide) (by decide)).2.1

/-- C9, amended: in a state whose shutdown flag is set, a worker step at any of the three
tests of the flag (loop head, after taking the lock, after the wait) only exits: no swap,
no publish, every other field unchanged; the flag stays set; and unless the worker had
already passed the test after the wait when the flag was set, along any execution from
that state the shared queue keeps every record it has and only grows by later calls of
`log`, a worker outside its publish loop publishes nothing at all, and a worker inside
it publishes only records already in its local buffer, in order. -/
theorem shutdown_stops_draining (s : ROSOutAppender) (tr : List Event)
    (h : s.shutting_down_ = true) :
    (s.pc = ThreadPc.loopHead ∨ s.pc = ThreadPc.lockCheck ∨ s.pc = ThreadPc.woken →
        s.logThread = { s with pc := ThreadPc.exited })
    ∧ (run s tr).shutting_down_ = true
    ∧ (s.pc ≠ ThreadPc.beforeSwap →
        (run s tr).log_queue_ = s.log_queue_ ++ records tr
        ∧ (s.pc ≠ ThreadPc.publishing → (run s tr).published = s.published)
        ∧ ∃ k, (run s tr).published = s.published ++ (pendingLocal s).take k) := by
  refine ⟨?_, flag_stays_set tr s h, ?_⟩
  · rintro (hpc | hpc | hpc) <;> simp [logThread, hpc, h]
  · intro hb
    obtain ⟨_, h2, h3, h4⟩ := shutdown_run tr s h hb
    exact ⟨h2, fun hpc => (h3 hpc).2, h4⟩

/-- C9, witness: the destructor sets the flag while the worker holds one swapped record
and a second record sits in the shared queue; the worker then runs to its exit: the
held record is published, the queued one stays in the shared queue. -/
theorem shutdown_stops_draining_witness :
    (run (run (construct false)
        [Event.worker, Event.worker, Event.worker,
         Event.log ⟨console.levels.Info, "a", "f", "g", 1, ⟨0, "n", none, []⟩⟩,
         Event.worker, Event.worker,
         Event.log ⟨console.levels.Warn, "b", "f", "g", 2, ⟨0, "n", none, []⟩⟩,
         Event.dtor])
        [Event.worker, Event.worker, Event.worker, Event.dtor, Event.worker]).log_queue_
      = [⟨0, Log.WARN, "n", "b", "f", "g", 2, []⟩] :=
  ((shutdown_stops_draining
    (run (construct false)
        [Event.worker, Event.worker, Event.worker,
         Event.log ⟨console.levels.Info, "a", "f", "g", 1, ⟨0, "n", none, []⟩⟩,
         Event.worker, Event.worker,
         Event.log ⟨console.levels.Warn, "b", "f", "g", 2, ⟨0, "n", none, []⟩⟩,
         Event.dtor])
    [Event.worker, Event.worker, Event.worker, Event.dtor, Event.worker]
    (by decide)).2.2 (by decide)).1

/-- C9, counterexample: the worker is released by a call and passes the test after the
wait; the destructor then sets the flag, with that record in the shared queue and the
local buffer empty; the worker's next two steps swap the shared queue and publish the
record. -/
theorem shutdown_race_drains :
    (run (construct false)
        [Event.worker, Event.worker, Event.worker,
         Event.log ⟨console.levels.Info, "a", "f", "g", 1, ⟨0, "n", none, []⟩⟩,
         Event.worker, Event.dtor]).shutting_down_ = true
    ∧ (run (construct false)
        [Event.worker, Event.worker, Event.worker,
         Event.log ⟨console.levels.Info, "a", "f", "g", 1, ⟨0, "n", none, []⟩⟩,
         Event.worker, Event.dtor]).log_queue_
        = [⟨0, Log.INFO, "n", "a", "f", "g", 1, []⟩]
    ∧ (run (construct false)
        [Event.worker, Event.worker, Event.worker,
         Event.log ⟨console.levels.Info, "a", "f", "g", 1, ⟨0, "n", none, []⟩⟩,
         Event.worker, Event.dtor]).local_queue = []
    ∧ (run (construct false)
        [Event.worker, Event.worker, Event.worker,
         Event.log ⟨console.levels.Info, "a", "f", "g", 1, ⟨0, "n", none, []⟩⟩,
         Event.worker, Event.dtor]).published = []
    ∧ (run (construct false)
        [Event.worker, Event.worker, Event.worker,
         Event.log ⟨console.levels.Info, "a", "f", "g", 1, ⟨0, "n", none, []⟩⟩,
         Event.worker, Event.dtor, Event.worker, Event.worker]).published
        = [⟨0, Log.INFO, "n", "a", "f", "g", 1, []⟩]
    ∧ (run (construct false)
        [Event.worker, Event.worker, Event.worker,
         Event.log ⟨console.levels.Info, "a", "f", "g", 1, ⟨0, "n", none, []⟩⟩,
         Event.worker, Event.dtor, Event.worker, Event.worker]).log_queue_ = [] := by
  decide

theorem loggedBeforeFirstWait_fields (flag0 : Bool) (c : LogCall) :
    (loggedBeforeFirstWait flag0 c).pc = ThreadPc.waiting
    ∧ (loggedBeforeFirstWait flag0 c).dtor = DtorPc.notStarted
    ∧ (loggedBeforeFirstWait flag0 c).shutting_down_ = false
    ∧ (loggedBeforeFirstWait flag0 c).log_queue_ = [c.record]
    ∧ (loggedBeforeFirstWait flag0 c).local_queue = []
    ∧ (loggedBeforeFirstWait flag0 c).published = [] := by
  simp [loggedBeforeFirstWait, run, step, construct, logThread, log_eq, LogCall.record,
    refreshFlag_old flag0 false]

/-- C10, amended: a running worker that holds the lock goes into the wait whatever the
shared queue contains; a fresh appender reaches a running state with a record in the
shared queue and the worker blocked in the wait, both when the call comes before the
worker first waits and when it comes during the worker's publish phase; from such a
state nothing is published and the record stays queued as long as no further call of
`log` is made and the wait does not return spuriously; once the destructor has set the
flag the record is never published, whatever follows; and a later call of `log` releases
the worker, which then publishes both records in order. -/
theorem unconditional_wait (s : ROSOutAppender) (flag0 : Bool) (c c' : LogCall)
    (tr : List Event) :
    (s.pc = ThreadPc.lockCheck → s.shutting_down_ = false →
        s.logThread = { s with pc := ThreadPc.beforeWait }
        ∧ s.logThread.logThread = { s with pc := ThreadPc.waiting })
    ∧ ((loggedBeforeFirstWait flag0 c).pc = ThreadPc.waiting
        ∧ (loggedBeforeFirstWait flag0 c).shutting_down_ = false
        ∧ (loggedBeforeFirstWait flag0 c).log_queue_ = [c.record]
        ∧ (loggedBeforeFirstWait flag0 c).published = []
        ∧ (loggedBeforeFirstWait flag0 c).logThread = loggedBeforeFirstWait flag0 c)
    ∧ ((loggedWhilePublishing flag0 c c').pc = ThreadPc.waiting
        ∧ (loggedWhilePublishing flag0 c c').shutting_down_ = false
        ∧ (loggedWhilePublishing flag0 c c').log_queue_ = [c'.record]
        ∧ (loggedWhilePublishing flag0 c c').published = [c.record]
        ∧ (loggedWhilePublishing flag0 c c').logThread = loggedWhilePublishing flag0 c c')
    ∧ ((∀ x, Event.log x ∉ tr) → Event.spurious ∉ tr →
        (run (loggedBeforeFirstWait flag0 c) tr).published = []
        ∧ (run (loggedBeforeFirstWait flag0 c) tr).log_queue_ = [c.record])
    ∧ (run (loggedBeforeFirstWait flag0 c) (Event.dtor :: tr)).published = []
    ∧ (run (loggedBeforeFirstWait flag0 c)
          [Event.log c', Event.worker, Event.worker, Event.worker, Event.worker]).published
        = [c.record, c'.record] := by
  obtain ⟨f1, f2, f3, f4, f5, f6⟩ := loggedBeforeFirstWait_fields flag0 c
  refine ⟨?_, ⟨f1, f3, f4, f6, ?_⟩, ?_, ?_, ?_, ?_⟩
  · intro hpc hf
    have h1 : s.logThread = { s with pc := ThreadPc.beforeWait } := by
      simp [logThread, hpc, hf]
    exact ⟨h1, by rw [h1]; simp [logThread]⟩
  · simp [logThread, f1]
  · have hw : (loggedWhilePublishing flag0 c c').pc = ThreadPc.waiting := by
      simp [loggedWhilePublishing, run, step, construct, logThread, log_eq]
    refine ⟨hw, ?_, ?_, ?_, by simp [logThread, hw]⟩ <;>
      simp [loggedWhilePublishing, run, step, construct, logThread, log_eq,
        LogCall.record, refreshFlag_old flag0 false,
        refreshFlag_old (refreshFlag false c.env.cached) false]
  · intro hn hs
    obtain ⟨w1, w2⟩ := waiting_run_quiet tr _ f1 (Or.inl f2) hn hs
    exact ⟨w1.trans f6, w2.trans f4⟩
  · rw [run_cons]
    have hs : step (loggedBeforeFirstWait flag0 c) Event.dtor
        = { loggedBeforeFirstWait flag0 c with
            shutting_down_ := true, dtor := DtorPc.flagSet } := by
      simp [step, destroy, f2]
    rw [hs]
    obtain ⟨_, _, j3, _⟩ := shutdown_run tr
      { loggedBeforeFirstWait flag0 c with
        shutting_down_ := true, dtor := DtorPc.flagSet } rfl (by simp [f1])
    rw [(j3 (by simp [f1])).2]
    exact f6
  · simp [loggedBeforeFirstWait, run, step, construct, logThread, log_eq, LogCall.record,
      refreshFlag_old flag0 false, refreshFlag_old (refreshFlag false c.env.cached) false]

/-- C10, witness: a worker at the lock with a record already queued goes to wait, and
then worker and destructor steps alone never publish the record. -/
theorem unconditional_wait_witness :
    ((run (construct false)
        [Event.log ⟨console.levels.Info, "a", "f", "g", 1, ⟨0, "n", none, []⟩⟩,
         Event.worker]).logThread.logThread.pc = ThreadPc.waiting)
    ∧ (run (loggedBeforeFirstWait false
          ⟨console.levels.Info, "a", "f", "g", 1, ⟨0, "n", none, []⟩⟩)
        [Event.worker, Event.dtor, Event.worker, Event.dtor, Event.worker]).published
      = [] :=
  ⟨congrArg ROSOutAppender.pc
      (((unconditional_wait
        (run (construct false)
          [Event.log ⟨console.levels.Info, "a", "f", "g", 1, ⟨0, "n", none, []⟩⟩,
           Event.worker])
        false ⟨console.levels.Info, "a", "f", "g", 1, ⟨0, "n", none, []⟩⟩
        ⟨console.levels.Info, "a", "f", "g", 1, ⟨0, "n", none, []⟩⟩ []).1
        (by decide) (by decide)).2),
   ((unconditional_wait (construct false) false
        ⟨console.levels.Info, "a", "f", "g", 1, ⟨0, "n", none, []⟩⟩
        ⟨console.levels.Info, "a", "f", "g", 1, ⟨0, "n", none, []⟩⟩
        [Event.worker, Event.dtor, Event.worker, Event.dtor, Event.worker]).2.2.2.1
      (by simp) (by simp)).1⟩

/-- C10, counterexample: from the state with one record queued and the worker blocked in
the wait, a spurious return of the wait followed by three worker steps publishes the
record, and no call of `log` is made on the way. -/
theorem wait_returns_spuriously :
    (∀ x, Event.log x ∉ [Event.spurious, Event.worker, Event.worker, Event.worker])
    ∧ (loggedBeforeFirstWait false
        ⟨console.levels.Info, "a", "f", "g", 1, ⟨0, "n", none, []⟩⟩).pc = ThreadPc.waiting
    ∧ (loggedBeforeFirstWait false
        ⟨console.levels.Info, "a", "f", "g", 1, ⟨0, "n", none, []⟩⟩).log_queue_
        = [⟨0, Log.INFO, "n", "a", "f", "g", 1, []⟩]
    ∧ (run (loggedBeforeFirstWait false
          ⟨console.levels.Info, "a", "f", "g", 1, ⟨0, "n", none, []⟩⟩)
        [Event.spurious, Event.worker, Event.worker, Event.worker]).published
        = [⟨0, Log.INFO, "n", "a", "f", "g", 1, []⟩] := by
  refine ⟨by simp, by decide, by decide, by decide⟩

end ros
